import Mathlib

/-!
Shallow embedding of the resource-scanner tool: the live implementation in
`src/tool/mod.rs` together with the coordinate type from `src/lib.rs`.
Pure functions of the source become Lean functions; the two external
collaborators (the map service's `discover_tiles` and `robot_view`) are passed
in as data, and the debug-build panic of the local-view translation closure is
modelled by an `Option` layer.
-/

/-- Two-dimensional map coordinate from `lib.rs`: `width` is the column,
`height` is the row. -/
structure MapCoordinate where
  width : Nat
  height : Nat
deriving DecidableEq, Repr

/-- Constructor `MapCoordinate::new(width, height)`. -/
def MapCoordinate.new (width height : Nat) : MapCoordinate := ⟨width, height⟩

/-- Modelled from the spec: a cell's content is an opaque kind discriminator
(compared with `mem::discriminant` in the source) together with a numeric
quantity payload (`content.get_value().0`); the concrete `Content` type lives
in the external `robotics_lib` crate, outside this repository. -/
structure CellContent where
  kind : Nat
  qty : Nat
deriving DecidableEq, Repr

/-- Rust `usize as i32` cast (two's-complement wrapping). -/
def i32ofUSize (n : Nat) : Int :=
  if n % 2 ^ 32 < 2 ^ 31 then ((n % 2 ^ 32 : Nat) : Int)
  else ((n % 2 ^ 32 : Nat) : Int) - 2 ^ 32

/-- The scan-pattern enum of `tool/mod.rs`, each variant carrying its
`usize` size parameter. -/
inductive Pattern where
  | area (size : Nat)
  | directionUp (size : Nat)
  | directionRight (size : Nat)
  | directionLeft (size : Nat)
  | directionDown (size : Nat)
  | diagonalUpperLeft (size : Nat)
  | diagonalUpperRight (size : Nat)
  | diagonalLowerLeft (size : Nat)
  | diagonalLowerRight (size : Nat)
  | straightStar (size : Nat)
  | diagonalStar (size : Nat)
deriving DecidableEq, Repr

/-- `Pattern::check_size`: `Area` is rejected when its size is even or its
`i32` cast is below 3; every other variant is rejected when the cast is
below 1. -/
def Pattern.check_size : Pattern → Bool
  | .area size => if size % 2 = 0 ∨ i32ofUSize size < 3 then false else true
  | .directionUp size => if i32ofUSize size < 1 then false else true
  | .directionRight size => if i32ofUSize size < 1 then false else true
  | .directionLeft size => if i32ofUSize size < 1 then false else true
  | .directionDown size => if i32ofUSize size < 1 then false else true
  | .diagonalUpperLeft size => if i32ofUSize size < 1 then false else true
  | .diagonalUpperRight size => if i32ofUSize size < 1 then false else true
  | .diagonalLowerLeft size => if i32ofUSize size < 1 then false else true
  | .diagonalLowerRight size => if i32ofUSize size < 1 then false else true
  | .straightStar size => if i32ofUSize size < 1 then false else true
  | .diagonalStar size => if i32ofUSize size < 1 then false else true

/-- Rust iteration `lo..hi` over `i32` (empty when `hi ≤ lo`). -/
def rangeExcl (lo hi : Int) : List Int :=
  (List.range (hi - lo).toNat).map fun k : Nat => lo + (k : Int)

/-- Rust iteration `lo..=hi` over `i32` (empty when `hi < lo`). -/
def rangeIncl (lo hi : Int) : List Int :=
  (List.range (hi + 1 - lo).toNat).map fun k : Nat => lo + (k : Int)

/-- The guarded push shared by every branch of `get_target_coordinates`:
the cell is appended only when it passes the out-of-bound check against
`[0, world_size)` on both axes. -/
def clipPush (worldSize : Nat) (xWorld yWorld : Int) : List MapCoordinate :=
  if ¬(xWorld < 0 ∨ xWorld > (worldSize : Int) - 1 ∨
       yWorld < 0 ∨ yWorld > (worldSize : Int) - 1) then
    [MapCoordinate.new xWorld.toNat yWorld.toNat]
  else []

/-- The `out` vector built by `ResourceScanner::get_target_coordinates`,
branch by branch. `worldSize` is `robot_map(world).len()` and
`(xRobot, yRobot)` is the robot's `(col, row)`; integer division by 2 is
Rust's truncating `i32` division. -/
def targetOut (worldSize xRobot yRobot : Nat) (pattern : Pattern) :
    List MapCoordinate :=
  match pattern with
  | .area size =>
      let length := i32ofUSize size
      let xAreaRobot := Int.tdiv length 2
      let yAreaRobot := Int.tdiv length 2
      (rangeExcl 0 length).flatMap fun x =>
        (rangeExcl 0 length).flatMap fun y =>
          clipPush worldSize ((xRobot : Int) + x - xAreaRobot)
            ((yRobot : Int) + y - yAreaRobot)
  | .directionLeft size =>
      let length := i32ofUSize size
      (rangeIncl 0 (-length)).flatMap fun x =>
        clipPush worldSize ((xRobot : Int) + x) (yRobot : Int)
  | .directionRight size =>
      let length := i32ofUSize size
      (rangeIncl 0 length).flatMap fun x =>
        clipPush worldSize ((xRobot : Int) + x) (yRobot : Int)
  | .directionUp size =>
      let length := i32ofUSize size
      (rangeIncl 0 length).flatMap fun y =>
        clipPush worldSize (xRobot : Int) ((yRobot : Int) + y)
  | .directionDown size =>
      let length := i32ofUSize size
      (rangeIncl 0 (-length)).flatMap fun y =>
        clipPush worldSize (xRobot : Int) ((yRobot : Int) + y)
  | .diagonalUpperLeft size =>
      let length := i32ofUSize size
      (rangeIncl 0 length).flatMap fun i =>
        clipPush worldSize ((xRobot : Int) + -i) ((yRobot : Int) + -i)
  | .diagonalUpperRight size =>
      let length := i32ofUSize size
      (rangeIncl 0 length).flatMap fun i =>
        clipPush worldSize ((xRobot : Int) + i) ((yRobot : Int) + -i)
  | .diagonalLowerLeft size =>
      let length := i32ofUSize size
      (rangeIncl 0 length).flatMap fun i =>
        clipPush worldSize ((xRobot : Int) + -i) ((yRobot : Int) + i)
  | .diagonalLowerRight size =>
      let length := i32ofUSize size
      (rangeIncl 0 length).flatMap fun i =>
        clipPush worldSize ((xRobot : Int) + i) ((yRobot : Int) + i)
  | .diagonalStar size =>
      let length := i32ofUSize size
      MapCoordinate.new xRobot yRobot ::
        ((rangeIncl 1 length).flatMap fun i =>
          ([((1 : Int), (1 : Int)), (1, -1), (-1, 1), (1, 1)]).flatMap fun m =>
            clipPush worldSize ((xRobot : Int) + m.1 * i) ((yRobot : Int) + m.2 * i))
  | .straightStar size =>
      let length := i32ofUSize size
      ((rangeIncl (-length) length).flatMap fun x =>
        clipPush worldSize ((xRobot : Int) + x) (yRobot : Int)) ++
      ((rangeIncl 1 length).flatMap fun y =>
        clipPush worldSize (xRobot : Int) ((yRobot : Int) + y)) ++
      ((rangeExcl (-length) 0).flatMap fun y =>
        clipPush worldSize (xRobot : Int) ((yRobot : Int) + y))

/-- `get_target_coordinates`: `None` when the built vector is empty. -/
def getTargetCoordinates (worldSize xRobot yRobot : Nat) (pattern : Pattern) :
    Option (List MapCoordinate) :=
  let out := targetOut worldSize xRobot yRobot pattern
  if out.length = 0 then none else some out

/-- Cell lookup `known[i][j]` in the robot-map snapshot. Out-of-range indices
read as unknown here; the source panics there, and every use below stays in
range. -/
def knownAt (known : List (List (Option CellContent))) (i j : Nat) :
    Option CellContent :=
  (known.getD i []).getD j none

/-- Insertion step of the sort modelling `tiles_to_remove.sort()`. -/
def insertSorted (n : Nat) : List Nat → List Nat
  | [] => [n]
  | m :: ms => if n ≤ m then n :: m :: ms else m :: insertSorted n ms

/-- Ascending sort of the removal indices (`tiles_to_remove.sort()`). -/
def sortNat (l : List Nat) : List Nat := l.foldr insertSorted []

/-- The `Some` branch of `get_sanitized_tiles`: collect the indices of the
candidates whose snapshot entry `known[width][height]` is already `Some`,
sort them, and remove them from the vector in reverse order. -/
def sanitizeCandidates (known : List (List (Option CellContent)))
    (v : List MapCoordinate) : List MapCoordinate :=
  let tilesToRemove :=
    ((v.enum).filter fun ic => (knownAt known ic.2.width ic.2.height).isSome).map
      Prod.fst
  ((sortNat tilesToRemove).reverse).foldl (fun acc index => acc.eraseIdx index) v

/-- `get_sanitized_tiles`: sanitize the engine's candidates, or return the
empty vector when the engine found none. -/
def getSanitizedTiles (worldSize : Nat) (known : List (List (Option CellContent)))
    (xRobot yRobot : Nat) (pattern : Pattern) : List MapCoordinate :=
  match getTargetCoordinates worldSize xRobot yRobot pattern with
  | some v => sanitizeCandidates known v
  | none => []

/-- Rust `Iterator::max_by_key` on the quantity component: `none` on an empty
iterator, otherwise the last entry attaining the maximal key. -/
def maxByKey (l : List (MapCoordinate × Nat)) : Option (MapCoordinate × Nat) :=
  match l with
  | [] => none
  | x :: xs => some (xs.foldl (fun a b => if a.2 ≤ b.2 then b else a) x)

/-- The selection stage of `scan` (its `Ok` arm): retain the disclosed tiles
whose content discriminant matches the wanted one, answer `none` when nothing
is left, and otherwise pick the coordinate/quantity pair with the maximal
quantity. -/
def scanSelect (hm : List ((Nat × Nat) × CellContent)) (want : CellContent) :
    Option (MapCoordinate × Nat) :=
  let retained := hm.filter fun kv => kv.2.kind == want.kind
  if retained.isEmpty then none
  else maxByKey (retained.map fun kv => (MapCoordinate.new kv.1.1 kv.1.2, kv.2.qty))

/-- The tool-level error enum from `errors/mod.rs`. -/
inductive ToolError where
  | invalidSizeError
  | emptyCoordinates
  | notEnoughEnergy
  | noMoreDiscovery
  | contentNotSupported
  | other (message : String)
deriving DecidableEq, Repr

/-- Modelled from the spec: the failure conditions of the external map
service's disclosure call (`robotics_lib::utils::LibError`, outside this
repository). -/
inductive LibErr where
  | notEnoughEnergy
  | noMoreDiscovery
  | otherFailure (message : String)
deriving DecidableEq, Repr

/-- The mapping of library errors into tool errors in `scan`'s `Err` arm. -/
def mapLibErr : LibErr → ToolError
  | .notEnoughEnergy => .notEnoughEnergy
  | .noMoreDiscovery => .noMoreDiscovery
  | .otherFailure m => .other m

/-- Rust debug-build `usize` subtraction `a - b`; `none` models the underflow
panic. Only `b = 1` is ever used below. -/
def usizeSub (a b : Nat) : Option Nat :=
  if b ≤ a then some (a - b) else none

/-- Inner loop of the `to_hashmap` closure: walk one row of the local view
(enumeration counter `xArea`), translating each `Some` tile to world
coordinates via `x_robot + x_area - 1` and `y_robot + y_area - 1`. -/
def rowScan (xRobot yRobot yArea : Nat) : Nat → List (Option CellContent) →
    Option (List ((Nat × Nat) × CellContent))
  | _, [] => some []
  | xArea, none :: rest => rowScan xRobot yRobot yArea (xArea + 1) rest
  | xArea, some t :: rest =>
      match usizeSub (xRobot + xArea) 1 with
      | none => none
      | some x =>
          match usizeSub (yRobot + yArea) 1 with
          | none => none
          | some y =>
              (rowScan xRobot yRobot yArea (xArea + 1) rest).map fun l =>
                ((x, y), t) :: l

/-- Outer loop of the `to_hashmap` closure (row counter `yArea`). -/
def viewScan (xRobot yRobot : Nat) : Nat → List (List (Option CellContent)) →
    Option (List ((Nat × Nat) × CellContent))
  | _, [] => some []
  | yArea, row :: rest =>
      match rowScan xRobot yRobot yArea 0 row with
      | some l => (viewScan xRobot yRobot (yArea + 1) rest).map fun l2 => l ++ l2
      | none => none

/-- The `to_hashmap` closure used by `scan`'s `Area(3)` local-view path; a
`none` result models the debug-build underflow panic. -/
def toHashmap (xRobot yRobot : Nat) (tilemap : List (List (Option CellContent))) :
    Option (List ((Nat × Nat) × CellContent)) :=
  viewScan xRobot yRobot 0 tilemap

/-- The `use_robot_view` flag computed at the top of `scan`. -/
def useRobotView : Pattern → Bool
  | .area 3 => true
  | _ => false

/-- The `scan` entry point. The external collaborators are passed as data:
`known` is the `robot_map` snapshot, `discover` the external `discover_tiles`
call, and `view` the `robot_view` window. The outer `Option` is `none`
exactly when the local-view translation closure panics on `usize`
underflow. -/
def scan (worldSize : Nat) (known : List (List (Option CellContent)))
    (xRobot yRobot : Nat)
    (discover : List (Nat × Nat) → Except LibErr (List ((Nat × Nat) × CellContent)))
    (view : List (List (Option CellContent)))
    (pattern : Pattern) (want : CellContent) :
    Option (Except ToolError (Option (MapCoordinate × Nat))) :=
  if ¬ pattern.check_size then some (.error .invalidSizeError)
  else
    let sanitized := getSanitizedTiles worldSize known xRobot yRobot pattern
    let binding := sanitized.map fun c => (c.width, c.height)
    let tiles : Option (Except LibErr (List ((Nat × Nat) × CellContent))) :=
      if useRobotView pattern then (toHashmap xRobot yRobot view).map Except.ok
      else some (discover binding)
    match tiles with
    | none => none
    | some (.error e) => some (.error (mapLibErr e))
    | some (.ok hm) => some (.ok (scanSelect hm want))

/-- Spec-side validity rule for extents (spec §3): `Area` requires an odd
extent of at least 3; every other variant requires an extent of at least 1. -/
def specValidExtent : Pattern → Bool
  | .area n => decide (n % 2 = 1 ∧ 3 ≤ n)
  | .directionUp n => decide (1 ≤ n)
  | .directionRight n => decide (1 ≤ n)
  | .directionLeft n => decide (1 ≤ n)
  | .directionDown n => decide (1 ≤ n)
  | .diagonalUpperLeft n => decide (1 ≤ n)
  | .diagonalUpperRight n => decide (1 ≤ n)
  | .diagonalLowerLeft n => decide (1 ≤ n)
  | .diagonalLowerRight n => decide (1 ≤ n)
  | .straightStar n => decide (1 ≤ n)
  | .diagonalStar n => decide (1 ≤ n)

/-- Spec-side description of the `Area(n)` candidate square (spec §4.1): the
side-`n` square of offsets around the agent, enumerated the same way as the
engine's double loop, with `n / 2` the integer half-width. -/
def areaOffsets (n ax ay : Nat) : List (Int × Int) :=
  (rangeExcl 0 (n : Int)).flatMap fun x =>
    (rangeExcl 0 (n : Int)).map fun y =>
      ((ax : Int) + x - ((n / 2 : Nat) : Int), (ay : Int) + y - ((n / 2 : Nat) : Int))

/-- Spec-side description of one clipped diagonal ray, amended to include the
agent cell: the cells at offsets `(dx·i, dy·i)` for `i ∈ 0..=n`, keeping those
inside `[0, w) × [0, w)`. -/
def diagRayCells (dx dy : Int) (n ax ay w : Nat) : List MapCoordinate :=
  ((List.range (n + 1)).map fun i : Nat =>
      ((ax : Int) + dx * (i : Int), (ay : Int) + dy * (i : Int))).filterMap fun q =>
    if 0 ≤ q.1 ∧ q.1 < (w : Int) ∧ 0 ≤ q.2 ∧ q.2 < (w : Int) then
      some (MapCoordinate.new q.1.toNat q.2.toNat)
    else none

/-- Sample content: a coin of quantity 1. -/
def coin1 : CellContent := ⟨1, 1⟩

/-- Sample content: a coin of quantity 2. -/
def coin2 : CellContent := ⟨1, 2⟩

/-- Sample content: a coin of quantity 3. -/
def coin3 : CellContent := ⟨1, 3⟩

/-- Sample content: a coin of quantity 5. -/
def coin5 : CellContent := ⟨1, 5⟩

/-- Sample content of a different category (kind 2). -/
def rock7 : CellContent := ⟨2, 7⟩

/-- A 2×2 snapshot whose only known cell sits at row 0, column 1. -/
def knownSnapshotT : List (List (Option CellContent)) :=
  [[none, some coin1], [none, none]]

/-- A fully unknown 5×5 snapshot. -/
def unknown5 : List (List (Option CellContent)) :=
  List.replicate 5 (List.replicate 5 (none : Option CellContent))

/-- A disclosure oracle that answers every request with the empty mapping. -/
def emptyDiscover :
    List (Nat × Nat) → Except LibErr (List ((Nat × Nat) × CellContent)) :=
  fun _ => .ok []

/-- A contract-conforming 3×3 local view for an agent at the map origin: the
off-grid border cells are `None`. -/
def borderView : List (List (Option CellContent)) :=
  [[none, none, none],
   [none, some coin1, some coin2],
   [none, some coin3, some coin5]]

/-- C1: the four directional rays are not straight rays of `n` cells in the
named direction. `DirectionLeft` and `DirectionDown` iterate the empty Rust
range `0..=-n` and generate nothing; `DirectionUp` walks rows `y..y+n`,
which is downward in the row convention of the repository's own tests
(they expect `DirectionUp(2)` from row 3 to cover row 1); `DirectionRight`
yields `n + 1` cells including the agent cell. -/
theorem c1_directional_rays_bug :
    targetOut 10 3 2 (.directionLeft 2) = [] ∧
    targetOut 10 3 2 (.directionDown 2) = [] ∧
    targetOut 50 2 3 (.directionUp 2) =
      [MapCoordinate.new 2 3, MapCoordinate.new 2 4, MapCoordinate.new 2 5] ∧
    MapCoordinate.new 2 1 ∉ targetOut 50 2 3 (.directionUp 2) ∧
    targetOut 50 1 2 (.directionRight 2) =
      [MapCoordinate.new 1 2, MapCoordinate.new 2 2, MapCoordinate.new 3 2] := by
  decide

/-- C5: `DiagonalStar` is not the deduplicated union of the four diagonal
rays plus the agent cell: the multiplier list `[(1,1),(1,-1),(-1,1),(1,1)]`
pushes the lower-right diagonal twice and omits the upper-left diagonal
entirely, and no deduplication happens before handoff. -/
theorem c5_diagonal_star_bug :
    targetOut 11 5 5 (.diagonalStar 1) =
      [MapCoordinate.new 5 5, MapCoordinate.new 6 6, MapCoordinate.new 6 4,
       MapCoordinate.new 4 6, MapCoordinate.new 6 6] ∧
    MapCoordinate.new 4 4 ∉ targetOut 11 5 5 (.diagonalStar 1) ∧
    ¬ (targetOut 11 5 5 (.diagonalStar 1)).Nodup := by
  decide

/-- C2: the sanitizer consults the transposed snapshot entry
`known[width][height]` instead of the candidate's own cell `known[row][col]`:
the candidate at column 1, row 0 — whose cell `known[0][1]` is already
known — is kept instead of removed. -/
theorem c2_sanitizer_transposed :
    (knownAt knownSnapshotT 0 1).isSome ∧
    sanitizeCandidates knownSnapshotT [MapCoordinate.new 1 0] =
      [MapCoordinate.new 1 0] := by
  decide

/-- C6 counterexample: `DiagonalUpperLeft(1)` at agent `(5,5)` yields the
agent's own cell in addition to the single diagonal cell, so the ray is not
`offset = (-i, -i)` for `i ∈ 1..=n` exclusive of the agent cell. -/
theorem c6_ray_includes_agent_cell :
    targetOut 11 5 5 (.diagonalUpperLeft 1) =
      [MapCoordinate.new 5 5, MapCoordinate.new 4 4] := by
  decide

/-- C9 counterexample: `DirectionDown(2)` generates no coordinates at all, yet
`scan` returns the successful empty result rather than the `EmptyCoordinates`
error. -/
theorem c9_empty_geometry_is_ok_none :
    scan 5 unknown5 3 1 emptyDiscover [] (.directionDown 2) coin1 =
      some (.ok none) ∧
    scan 5 unknown5 3 1 emptyDiscover [] (.directionDown 2) coin1 ≠
      some (.error ToolError.emptyCoordinates) := by
  constructor
  · rfl
  · intro h
    have h1 : scan 5 unknown5 3 1 emptyDiscover [] (.directionDown 2) coin1 =
        some (.ok none) := rfl
    rw [h1] at h
    exact Except.noConfusion (Option.some.inj h)

/-- C10 counterexample: with the agent at column 0 and row 0 and a local view
whose off-grid border cells are `None` (the external `robot_view` contract),
the translation closure completes without any `usize` underflow — the
subtraction is only reached inside the `Some` match arm. -/
theorem c10_no_underflow_at_origin :
    toHashmap 0 0 borderView =
      some [((0, 0), coin1), ((1, 0), coin2), ((0, 1), coin3), ((1, 1), coin5)] := by
  decide

/-- Membership in the inclusive Rust range. -/
theorem mem_rangeIncl {lo hi a : Int} : a ∈ rangeIncl lo hi ↔ lo ≤ a ∧ a ≤ hi := by
  simp only [rangeIncl, List.mem_map, List.mem_range]
  constructor
  · rintro ⟨k, hk, rfl⟩
    omega
  · rintro ⟨h1, h2⟩
    exact ⟨(a - lo).toNat, by omega, by omega⟩

/-- Membership in the exclusive Rust range. -/
theorem mem_rangeExcl {lo hi a : Int} : a ∈ rangeExcl lo hi ↔ lo ≤ a ∧ a < hi := by
  simp only [rangeExcl, List.mem_map, List.mem_range]
  constructor
  · rintro ⟨k, hk, rfl⟩
    omega
  · rintro ⟨h1, h2⟩
    exact ⟨(a - lo).toNat, by omega, by omega⟩

/-- Membership in a guarded push: the cell passed the bound check and is the
truncation of the world coordinates. -/
theorem mem_clipPush {w : Nat} {x y : Int} {c : MapCoordinate} :
    c ∈ clipPush w x y ↔
      (0 ≤ x ∧ x < (w : Int) ∧ 0 ≤ y ∧ y < (w : Int)) ∧
        c = MapCoordinate.new x.toNat y.toNat := by
  unfold clipPush
  by_cases h : x < 0 ∨ x > (w : Int) - 1 ∨ y < 0 ∨ y > (w : Int) - 1
  · simp only [h, not_true_eq_false, if_false, List.not_mem_nil, false_iff]
    rintro ⟨⟨h1, h2, h3, h4⟩, -⟩
    omega
  · simp only [h, not_false_eq_true, if_true, List.mem_singleton]
    push_neg at h
    constructor
    · intro hc
      exact ⟨⟨h.1, by omega, h.2.2.1, by omega⟩, hc⟩
    · rintro ⟨-, hc⟩
      exact hc

/-- Every cell emitted by a guarded push lies strictly inside the world. -/
theorem clipPush_mem_lt {w : Nat} {x y : Int} {c : MapCoordinate}
    (h : c ∈ clipPush w x y) : c.width < w ∧ c.height < w := by
  rcases mem_clipPush.mp h with ⟨⟨h1, h2, h3, h4⟩, rfl⟩
  exact ⟨by simp only [MapCoordinate.new]; omega, by simp only [MapCoordinate.new]; omega⟩

/-- Below `2^31` the `usize as i32` cast is the identity. -/
theorem i32ofUSize_eq_of_lt {n : Nat} (h : n < 2 ^ 31) : i32ofUSize n = (n : Int) := by
  unfold i32ofUSize
  rw [Nat.mod_eq_of_lt (by omega)]
  rw [if_pos h]

/-- C4: clipping invariant of the geometry engine — for every pattern, every
extent, and every in-bounds agent position, every coordinate in the engine's
output lies within `[0, world_size)` on both axes. Out-of-bound candidates
are silently dropped by the guarded push rather than reported as errors. -/
theorem c4_clipping_invariant (worldSize xRobot yRobot : Nat) (pattern : Pattern)
    (hx : xRobot < worldSize) (hy : yRobot < worldSize) :
    ∀ c ∈ targetOut worldSize xRobot yRobot pattern,
      c.width < worldSize ∧ c.height < worldSize := by
  intro c hc
  cases pattern with
  | area n =>
      simp only [targetOut, List.mem_flatMap] at hc
      obtain ⟨x, -, y, -, hcc⟩ := hc
      exact clipPush_mem_lt hcc
  | directionUp n =>
      simp only [targetOut, List.mem_flatMap] at hc
      obtain ⟨y, -, hcc⟩ := hc
      exact clipPush_mem_lt hcc
  | directionRight n =>
      simp only [targetOut, List.mem_flatMap] at hc
      obtain ⟨x, -, hcc⟩ := hc
      exact clipPush_mem_lt hcc
  | directionLeft n =>
      simp only [targetOut, List.mem_flatMap] at hc
      obtain ⟨x, -, hcc⟩ := hc
      exact clipPush_mem_lt hcc
  | directionDown n =>
      simp only [targetOut, List.mem_flatMap] at hc
      obtain ⟨y, -, hcc⟩ := hc
      exact clipPush_mem_lt hcc
  | diagonalUpperLeft n =>
      simp only [targetOut, List.mem_flatMap] at hc
      obtain ⟨i, -, hcc⟩ := hc
      exact clipPush_mem_lt hcc
  | diagonalUpperRight n =>
      simp only [targetOut, List.mem_flatMap] at hc
      obtain ⟨i, -, hcc⟩ := hc
      exact clipPush_mem_lt hcc
  | diagonalLowerLeft n =>
      simp only [targetOut, List.mem_flatMap] at hc
      obtain ⟨i, -, hcc⟩ := hc
      exact clipPush_mem_lt hcc
  | diagonalLowerRight n =>
      simp only [targetOut, List.mem_flatMap] at hc
      obtain ⟨i, -, hcc⟩ := hc
      exact clipPush_mem_lt hcc
  | diagonalStar n =>
      simp only [targetOut, List.mem_cons, List.mem_flatMap] at hc
      rcases hc with rfl | ⟨i, -, m, -, hcc⟩
      · exact ⟨hx, hy⟩
      · exact clipPush_mem_lt hcc
  | straightStar n =>
      simp only [targetOut, List.mem_append, List.mem_flatMap] at hc
      rcases hc with (⟨x, -, hcc⟩ | ⟨y, -, hcc⟩) | ⟨y, -, hcc⟩
      · exact clipPush_mem_lt hcc
      · exact clipPush_mem_lt hcc
      · exact clipPush_mem_lt hcc

/-- C4 witness: the agent cell emitted by `DiagonalStar(1)` at `(2,2)` in a
5×5 world is in bounds. -/
theorem c4_clipping_invariant_witness :
    (MapCoordinate.new 2 2).width < 5 ∧ (MapCoordinate.new 2 2).height < 5 :=
  c4_clipping_invariant 5 2 2 (.diagonalStar 1) (by decide) (by decide)
    (MapCoordinate.new 2 2) (by decide)

/-- C8: whenever the extent fails the spec's per-shape validity rule (`Area`
extent even or below 3; any other variant's extent below 1), `scan` answers
the invalid-size error immediately — for every snapshot, agent position and
disclosure oracle, so before any geometry computation or external call. -/
theorem c8_invalid_extent_rejected (worldSize : Nat)
    (known : List (List (Option CellContent))) (xRobot yRobot : Nat)
    (discover : List (Nat × Nat) → Except LibErr (List ((Nat × Nat) × CellContent)))
    (view : List (List (Option CellContent)))
    (pattern : Pattern) (want : CellContent)
    (h : specValidExtent pattern = false) :
    scan worldSize known xRobot yRobot discover view pattern want =
      some (.error .invalidSizeError) := by
  have hcs : pattern.check_size = false := by
    cases pattern with
    | area n =>
        simp only [specValidExtent, decide_eq_false_iff_not, not_and, not_le] at h
        have hcase : n % 2 = 0 ∨ n = 1 := by omega
        rcases hcase with h0 | h1
        · simp [Pattern.check_size, h0]
        · subst h1
          decide
    | directionUp n =>
        simp only [specValidExtent, decide_eq_false_iff_not, not_le, Nat.lt_one_iff] at h
        subst h
        decide
    | directionRight n =>
        simp only [specValidExtent, decide_eq_false_iff_not, not_le, Nat.lt_one_iff] at h
        subst h
        decide
    | directionLeft n =>
        simp only [specValidExtent, decide_eq_false_iff_not, not_le, Nat.lt_one_iff] at h
        subst h
        decide
    | directionDown n =>
        simp only [specValidExtent, decide_eq_false_iff_not, not_le, Nat.lt_one_iff] at h
        subst h
        decide
    | diagonalUpperLeft n =>
        simp only [specValidExtent, decide_eq_false_iff_not, not_le, Nat.lt_one_iff] at h
        subst h
        decide
    | diagonalUpperRight n =>
        simp only [specValidExtent, decide_eq_false_iff_not, not_le, Nat.lt_one_iff] at h
        subst h
        decide
    | diagonalLowerLeft n =>
        simp only [specValidExtent, decide_eq_false_iff_not, not_le, Nat.lt_one_iff] at h
        subst h
        decide
    | diagonalLowerRight n =>
        simp only [specValidExtent, decide_eq_false_iff_not, not_le, Nat.lt_one_iff] at h
        subst h
        decide
    | straightStar n =>
        simp only [specValidExtent, decide_eq_false_iff_not, not_le, Nat.lt_one_iff] at h
        subst h
        decide
    | diagonalStar n =>
        simp only [specValidExtent, decide_eq_false_iff_not, not_le, Nat.lt_one_iff] at h
        subst h
        decide
  simp [scan, hcs]

/-- C8 witness: `Area(2)` (an even extent) is rejected with the invalid-size
error. -/
theorem c8_invalid_extent_witness :
    specValidExtent (.area 2) = false ∧
    scan 3 unknown5 0 0 emptyDiscover [] (.area 2) coin1 =
      some (.error .invalidSizeError) :=
  ⟨by decide,
    c8_invalid_extent_rejected 3 unknown5 0 0 emptyDiscover [] (.area 2) coin1
      (by decide)⟩

/-- C9 (amended): when the geometry engine yields no in-bounds coordinate,
the sanitized candidate set is empty and `scan` issues an empty disclosure
request; since the external service answers an empty request with an empty
mapping, `scan` returns the successful empty result — the `EmptyCoordinates`
error is never produced. -/
theorem c9_amended_empty_geometry (worldSize : Nat)
    (known : List (List (Option CellContent))) (xRobot yRobot : Nat)
    (discover : List (Nat × Nat) → Except LibErr (List ((Nat × Nat) × CellContent)))
    (view : List (List (Option CellContent)))
    (pattern : Pattern) (want : CellContent)
    (hck : pattern.check_size = true)
    (hrv : useRobotView pattern = false)
    (hempty : targetOut worldSize xRobot yRobot pattern = [])
    (hd : discover [] = .ok []) :
    scan worldSize known xRobot yRobot discover view pattern want =
      some (.ok none) := by
  have hs : getSanitizedTiles worldSize known xRobot yRobot pattern = [] := by
    simp [getSanitizedTiles, getTargetCoordinates, hempty]
  simp [scan, hck, hrv, hs, hd, scanSelect]

/-- C9 amended witness: `DirectionLeft(3)` (an empty Rust range) leads to the
successful empty result. -/
theorem c9_amended_witness :
    scan 4 unknown5 2 2 emptyDiscover [] (.directionLeft 3) coin1 =
      some (.ok none) :=
  c9_amended_empty_geometry 4 unknown5 2 2 emptyDiscover [] (.directionLeft 3) coin1
    (by decide) (by decide) (by decide) rfl

/-- A run of guarded pushes is the filterMap of the bound test over the raw
offset stream. -/
theorem flatMap_clip_eq_filterMap {α : Type} (w : Nat) (l : List α)
    (fx fy : α → Int) :
    (l.flatMap fun a => clipPush w (fx a) (fy a)) =
      l.filterMap fun a =>
        if 0 ≤ fx a ∧ fx a < (w : Int) ∧ 0 ≤ fy a ∧ fy a < (w : Int) then
          some (MapCoordinate.new (fx a).toNat (fy a).toNat)
        else none := by
  induction l with
  | nil => rfl
  | cons q rest ih =>
      simp only [List.flatMap_cons, List.filterMap_cons]
      by_cases hq : 0 ≤ fx q ∧ fx q < (w : Int) ∧ 0 ≤ fy q ∧ fy q < (w : Int)
      · have hcp : clipPush w (fx q) (fy q) =
            [MapCoordinate.new (fx q).toNat (fy q).toNat] := by
          unfold clipPush
          rw [if_pos (by omega)]
        rw [hcp, if_pos hq, ih]
        rfl
      · have hcp : clipPush w (fx q) (fy q) = [] := by
          unfold clipPush
          rw [if_neg (by omega)]
        rw [hcp, if_neg hq, ih]
        rfl

/-- The inclusive range `0..=n` is the cast of `List.range (n + 1)`. -/
theorem rangeIncl_zero_natCast (n : Nat) :
    rangeIncl 0 (n : Int) = (List.range (n + 1)).map fun k : Nat => (k : Int) := by
  unfold rangeIncl
  have h : ((n : Int) + 1 - 0).toNat = n + 1 := by omega
  rw [h]
  exact List.map_congr_left fun a _ => by omega

/-- A diagonal branch of the engine equals the spec-side clipped ray. -/
theorem flatMapRange_eq_diagRayCells (w ax ay n : Nat) (dx dy : Int) :
    ((rangeIncl 0 (n : Int)).flatMap fun i =>
        clipPush w ((ax : Int) + dx * i) ((ay : Int) + dy * i)) =
      diagRayCells dx dy n ax ay w := by
  rw [rangeIncl_zero_natCast, List.flatMap_map]
  rw [flatMap_clip_eq_filterMap w (List.range (n + 1))
      (fun k : Nat => (ax : Int) + dx * (k : Int))
      (fun k : Nat => (ay : Int) + dy * (k : Int))]
  unfold diagRayCells
  rw [List.filterMap_map]
  rfl

/-- C6 (amended): each diagonal ray variant generates exactly the clipped
cells at offsets `(±i, ±i)` for `i ∈ 0..=n` — that is, `n + 1` cells
including the agent's own cell before clipping, rather than the spec's
`i ∈ 1..=n` exclusive ray. -/
theorem c6_amended_diagonal_rays (n ax ay w : Nat) (hn : 1 ≤ n)
    (hsmall : n < 2 ^ 31) :
    targetOut w ax ay (.diagonalUpperLeft n) = diagRayCells (-1) (-1) n ax ay w ∧
    targetOut w ax ay (.diagonalUpperRight n) = diagRayCells 1 (-1) n ax ay w ∧
    targetOut w ax ay (.diagonalLowerLeft n) = diagRayCells (-1) 1 n ax ay w ∧
    targetOut w ax ay (.diagonalLowerRight n) = diagRayCells 1 1 n ax ay w ∧
    (((List.range (n + 1)).map fun i : Nat =>
        ((ax : Int) + (-1) * (i : Int), (ay : Int) + (-1) * (i : Int))).length
      = n + 1) ∧
    ((ax : Int), (ay : Int)) ∈
      (List.range (n + 1)).map fun i : Nat =>
        ((ax : Int) + (-1) * (i : Int), (ay : Int) + (-1) * (i : Int)) := by
  refine ⟨?_, ?_, ?_, ?_, ?_, ?_⟩
  · have h1 : targetOut w ax ay (.diagonalUpperLeft n) =
        (rangeIncl 0 (n : Int)).flatMap fun i =>
          clipPush w ((ax : Int) + (-1) * i) ((ay : Int) + (-1) * i) := by
      simp only [targetOut, i32ofUSize_eq_of_lt hsmall, neg_one_mul]
    rw [h1, flatMapRange_eq_diagRayCells]
  · have h1 : targetOut w ax ay (.diagonalUpperRight n) =
        (rangeIncl 0 (n : Int)).flatMap fun i =>
          clipPush w ((ax : Int) + 1 * i) ((ay : Int) + (-1) * i) := by
      simp only [targetOut, i32ofUSize_eq_of_lt hsmall, neg_one_mul, one_mul]
    rw [h1, flatMapRange_eq_diagRayCells]
  · have h1 : targetOut w ax ay (.diagonalLowerLeft n) =
        (rangeIncl 0 (n : Int)).flatMap fun i =>
          clipPush w ((ax : Int) + (-1) * i) ((ay : Int) + 1 * i) := by
      simp only [targetOut, i32ofUSize_eq_of_lt hsmall, neg_one_mul, one_mul]
    rw [h1, flatMapRange_eq_diagRayCells]
  · have h1 : targetOut w ax ay (.diagonalLowerRight n) =
        (rangeIncl 0 (n : Int)).flatMap fun i =>
          clipPush w ((ax : Int) + 1 * i) ((ay : Int) + 1 * i) := by
      simp only [targetOut, i32ofUSize_eq_of_lt hsmall, one_mul]
    rw [h1, flatMapRange_eq_diagRayCells]
  · simp
  · refine List.mem_map.mpr ⟨0, List.mem_range.mpr (by omega), ?_⟩
    simp

/-- C6 amended witness: the upper-left ray of extent 1 at agent `(5,5)`. -/
theorem c6_amended_witness :
    targetOut 11 5 5 (.diagonalUpperLeft 1) = diagRayCells (-1) (-1) 1 5 5 11 :=
  (c6_amended_diagonal_rays 1 5 5 11 (by decide) (by decide)).1

/-- Every guarded push contributes at most one cell. -/
theorem clipPush_length_le_one (w : Nat) (x y : Int) :
    (clipPush w x y).length ≤ 1 := by
  unfold clipPush
  split <;> simp

/-- A flatMap whose pieces have length at most one cannot grow the list. -/
theorem length_flatMap_le_of_le_one {α β : Type} (l : List α) (f : α → List β)
    (h : ∀ a, (f a).length ≤ 1) : (l.flatMap f).length ≤ l.length := by
  induction l with
  | nil => simp
  | cons a t ih =>
      have ha := h a
      simp only [List.flatMap_cons, List.length_append, List.length_cons]
      omega

/-- The exclusive range `0..n` has `n` entries. -/
theorem rangeExcl_zero_length (n : Nat) : (rangeExcl 0 (n : Int)).length = n := by
  unfold rangeExcl
  rw [List.length_map, List.length_range]
  omega

/-- C3: for every valid odd extent `n ≥ 3`, the `Area(n)` candidates are the
`n × n` square of offsets in `[-(n/2), n/2]` around the agent, including the
agent's own cell: exactly `n²` offsets before clipping, and the engine output
is their clipped image — a subset, never more than `n²` cells. -/
theorem c3_area_square (n w ax ay : Nat) (hodd : n % 2 = 1) (h3 : 3 ≤ n)
    (hsmall : n < 2 ^ 31) :
    (areaOffsets n ax ay).length = n * n ∧
    ((ax : Int), (ay : Int)) ∈ areaOffsets n ax ay ∧
    (∀ q ∈ areaOffsets n ax ay, ∃ dx dy : Int,
        -(((n / 2 : Nat) : Int)) ≤ dx ∧ dx ≤ ((n / 2 : Nat) : Int) ∧
        -(((n / 2 : Nat) : Int)) ≤ dy ∧ dy ≤ ((n / 2 : Nat) : Int) ∧
        q = ((ax : Int) + dx, (ay : Int) + dy)) ∧
    targetOut w ax ay (.area n) =
      ((areaOffsets n ax ay).flatMap fun q => clipPush w q.1 q.2) ∧
    (∀ c ∈ targetOut w ax ay (.area n), ∃ q ∈ areaOffsets n ax ay,
        c = MapCoordinate.new q.1.toNat q.2.toNat) ∧
    (targetOut w ax ay (.area n)).length ≤ n * n := by
  have hcast : i32ofUSize n = (n : Int) := i32ofUSize_eq_of_lt (by omega)
  have hdiv : Int.tdiv (n : Int) 2 = ((n / 2 : Nat) : Int) := by
    rw [Int.ofNat_tdiv]
    norm_num
  have heq : targetOut w ax ay (.area n) =
      ((areaOffsets n ax ay).flatMap fun q => clipPush w q.1 q.2) := by
    simp only [targetOut, hcast, hdiv, areaOffsets, List.flatMap_assoc,
      List.flatMap_map]
  have hlen : (areaOffsets n ax ay).length = n * n := by
    unfold areaOffsets
    rw [List.length_flatMap]
    have hmapped :
        (List.map (List.length ∘ fun x =>
            (rangeExcl 0 (n : Int)).map fun y =>
              ((ax : Int) + x - ((n / 2 : Nat) : Int),
               (ay : Int) + y - ((n / 2 : Nat) : Int)))
          (rangeExcl 0 (n : Int))) =
          List.replicate n n := by
      have : ∀ x ∈ rangeExcl 0 (n : Int),
          (List.length ∘ fun x : Int =>
            (rangeExcl 0 (n : Int)).map fun y =>
              ((ax : Int) + x - ((n / 2 : Nat) : Int),
               (ay : Int) + y - ((n / 2 : Nat) : Int))) x = n := by
        intro x _
        simp [rangeExcl_zero_length]
      rw [List.map_congr_left this]
      rw [List.map_const', rangeExcl_zero_length]
    rw [hmapped, List.sum_replicate, smul_eq_mul]
  have hagent : ((ax : Int), (ay : Int)) ∈ areaOffsets n ax ay := by
    unfold areaOffsets
    refine List.mem_flatMap.mpr
      ⟨((n / 2 : Nat) : Int), mem_rangeExcl.mpr ⟨by omega, by omega⟩, ?_⟩
    refine List.mem_map.mpr
      ⟨((n / 2 : Nat) : Int), mem_rangeExcl.mpr ⟨by omega, by omega⟩, ?_⟩
    simp only [Prod.mk.injEq]
    constructor <;> omega
  refine ⟨hlen, hagent, ?_, heq, ?_, ?_⟩
  · intro q hq
    unfold areaOffsets at hq
    rcases List.mem_flatMap.mp hq with ⟨x, hx, hq2⟩
    rcases List.mem_map.mp hq2 with ⟨y, hy, rfl⟩
    rcases mem_rangeExcl.mp hx with ⟨hx1, hx2⟩
    rcases mem_rangeExcl.mp hy with ⟨hy1, hy2⟩
    refine ⟨x - ((n / 2 : Nat) : Int), y - ((n / 2 : Nat) : Int),
      by omega, by omega, by omega, by omega, ?_⟩
    simp only [Prod.mk.injEq]
    constructor <;> ring
  · intro c hc
    rw [heq] at hc
    rcases List.mem_flatMap.mp hc with ⟨q, hq, hcq⟩
    rcases mem_clipPush.mp hcq with ⟨-, rfl⟩
    exact ⟨q, hq, rfl⟩
  · rw [heq]
    calc ((areaOffsets n ax ay).flatMap fun q => clipPush w q.1 q.2).length
        ≤ (areaOffsets n ax ay).length :=
          length_flatMap_le_of_le_one _ _ fun q => clipPush_length_le_one w q.1 q.2
      _ = n * n := hlen

/-- C3 witness: `Area(3)` at agent `(1,1)` in a 5×5 world. -/
theorem c3_area_square_witness :
    (areaOffsets 3 1 1).length = 3 * 3 ∧ (targetOut 5 1 1 (.area 3)).length ≤ 3 * 3 :=
  ⟨(c3_area_square 3 5 1 1 (by decide) (by decide) (by decide)).1,
   (c3_area_square 3 5 1 1 (by decide) (by decide) (by decide)).2.2.2.2.2⟩

/-- Mapping a function over an optional value preserves definedness. -/
theorem isSome_omap {α β : Type} (f : α → β) (o : Option α) :
    (o.map f).isSome = o.isSome := by
  cases o <;> rfl

/-- The fold behind `max_by_key`: the result is one of the inputs, it
dominates the seed, and it dominates every element of the list. -/
theorem foldl_maxByKey_spec (x : MapCoordinate × Nat)
    (xs : List (MapCoordinate × Nat)) :
    (xs.foldl (fun a b => if a.2 ≤ b.2 then b else a) x) ∈ x :: xs ∧
    x.2 ≤ (xs.foldl (fun a b => if a.2 ≤ b.2 then b else a) x).2 ∧
    ∀ p ∈ xs, p.2 ≤ (xs.foldl (fun a b => if a.2 ≤ b.2 then b else a) x).2 := by
  induction xs generalizing x with
  | nil => simp
  | cons y ys ih =>
      by_cases hxy : x.2 ≤ y.2
      · simp only [List.foldl_cons, if_pos hxy]
        obtain ⟨hmem, hge, hall⟩ := ih y
        refine ⟨?_, ?_, ?_⟩
        · rcases List.mem_cons.mp hmem with h | h
          · simp [h]
          · simp [List.mem_cons, h]
        · exact le_trans hxy hge
        · intro p hp
          rcases List.mem_cons.mp hp with rfl | hp2
          · exact hge
          · exact hall p hp2
      · simp only [List.foldl_cons, if_neg hxy]
        obtain ⟨hmem, hge, hall⟩ := ih x
        refine ⟨?_, ?_, ?_⟩
        · rcases List.mem_cons.mp hmem with h | h
          · simp [h]
          · simp [List.mem_cons, h]
        · exact hge
        · intro p hp
          rcases List.mem_cons.mp hp with rfl | hp2
          · omega
          · exact hall p hp2

/-- Specification of `max_by_key`: a returned entry is in the list and its
quantity dominates every entry. -/
theorem maxByKey_spec {l : List (MapCoordinate × Nat)} {m : MapCoordinate × Nat}
    (h : maxByKey l = some m) : m ∈ l ∧ ∀ p ∈ l, p.2 ≤ m.2 := by
  cases l with
  | nil => cases h
  | cons x xs =>
      simp only [maxByKey] at h
      obtain ⟨hmem, hge, hall⟩ := foldl_maxByKey_spec x xs
      have hme := Option.some.inj h
      subst hme
      refine ⟨hmem, ?_⟩
      intro p hp
      rcases List.mem_cons.mp hp with rfl | hp2
      · exact hge
      · exact hall p hp2

/-- C7: the selection stage filters the disclosed cells by content
discriminator alone; when no cell matches it returns the successful empty
result, and otherwise it returns a matching coordinate/quantity pair whose
quantity is maximal among all matching cells. -/
theorem c7_selector (hm : List ((Nat × Nat) × CellContent)) (want : CellContent) :
    (scanSelect hm want = none ↔ ∀ kv ∈ hm, ¬ kv.2.kind = want.kind) ∧
    (∀ c q, scanSelect hm want = some (c, q) →
      (c, q) ∈ ((hm.filter fun kv => kv.2.kind == want.kind).map
          fun kv => (MapCoordinate.new kv.1.1 kv.1.2, kv.2.qty)) ∧
      ∀ p ∈ ((hm.filter fun kv => kv.2.kind == want.kind).map
          fun kv => (MapCoordinate.new kv.1.1 kv.1.2, kv.2.qty)), p.2 ≤ q) := by
  have hfilter_iff : (hm.filter fun kv => kv.2.kind == want.kind) = [] ↔
      ∀ kv ∈ hm, ¬ kv.2.kind = want.kind := by
    rw [List.filter_eq_nil_iff]
    simp
  constructor
  · cases hfl : hm.filter (fun kv => kv.2.kind == want.kind) with
    | nil =>
        simp only [scanSelect, hfl, List.isEmpty_nil, if_true]
        constructor
        · intro _
          exact hfilter_iff.mp hfl
        · intro _
          trivial
    | cons a as =>
        simp only [scanSelect, hfl, List.isEmpty_cons, List.map_cons, maxByKey,
          Bool.false_eq_true, if_false]
        constructor
        · intro hn
          cases hn
        · intro hall
          have hnil := hfilter_iff.mpr hall
          rw [hfl] at hnil
          cases hnil
  · intro c q hsel
    cases hfl : hm.filter (fun kv => kv.2.kind == want.kind) with
    | nil =>
        simp only [scanSelect, hfl, List.isEmpty_nil, if_true] at hsel
        cases hsel
    | cons a as =>
        simp only [scanSelect, hfl, List.isEmpty_cons, Bool.false_eq_true,
          if_false] at hsel
        obtain ⟨hmem, hall⟩ := maxByKey_spec hsel
        exact ⟨hmem, fun p hp => hall p hp⟩

/-- Disclosed cells containing two matching coins of quantities 1 and 5
alongside a non-matching cell of quantity 7. -/
def disclosedSample : List ((Nat × Nat) × CellContent) :=
  [((0, 0), coin1), ((1, 1), coin5), ((2, 2), rock7)]

/-- C7 witness: with matching quantities 1 and 5, the selector answers the
entry with quantity 5. -/
theorem c7_selector_witness :
    (MapCoordinate.new 1 1, 5) ∈
      ((disclosedSample.filter fun kv => kv.2.kind == coin1.kind).map
        fun kv => (MapCoordinate.new kv.1.1 kv.1.2, kv.2.qty)) :=
  ((c7_selector disclosedSample coin1).2 (MapCoordinate.new 1 1) 5 (by decide)).1

/-- Definedness of the inner translation loop: walking a row from counter
`xa0` succeeds exactly when every `Some` cell of the row sits at a window
column `k` with `x_robot + xa0 + k ≥ 1` and at a window row with
`y_robot + y_area ≥ 1` — otherwise the `usize` subtraction underflows. -/
theorem rowScan_isSome (xr yr ya : Nat) (row : List (Option CellContent)) :
    ∀ xa0 : Nat, (rowScan xr yr ya xa0 row).isSome ↔
      ∀ k, ((row.getD k none).isSome → 1 ≤ xr + xa0 + k ∧ 1 ≤ yr + ya) := by
  induction row with
  | nil =>
      intro xa0
      simp only [rowScan, Option.isSome_some, true_iff]
      intro k hk
      simp at hk
  | cons t rest ih =>
      intro xa0
      cases t with
      | none =>
          simp only [rowScan]
          rw [ih (xa0 + 1)]
          constructor
          · intro h k hk
            cases k with
            | zero => simp [List.getD_cons_zero] at hk
            | succ k =>
                rw [List.getD_cons_succ] at hk
                obtain ⟨h1, h2⟩ := h k hk
                exact ⟨by omega, h2⟩
          · intro h k hk
            obtain ⟨h1, h2⟩ := h (k + 1) (by rwa [List.getD_cons_succ])
            exact ⟨by omega, h2⟩
      | some c =>
          by_cases hx1 : 1 ≤ xr + xa0
          · by_cases hy1 : 1 ≤ yr + ya
            · have hux : usizeSub (xr + xa0) 1 = some (xr + xa0 - 1) := by
                simp [usizeSub, hx1]
              have huy : usizeSub (yr + ya) 1 = some (yr + ya - 1) := by
                simp [usizeSub, hy1]
              simp only [rowScan, hux, huy, isSome_omap]
              rw [ih (xa0 + 1)]
              constructor
              · intro h k hk
                cases k with
                | zero => exact ⟨by omega, hy1⟩
                | succ k =>
                    rw [List.getD_cons_succ] at hk
                    obtain ⟨h1, h2⟩ := h k hk
                    exact ⟨by omega, h2⟩
              · intro h k hk
                obtain ⟨h1, h2⟩ := h (k + 1) (by rwa [List.getD_cons_succ])
                exact ⟨by omega, h2⟩
            · have huy : usizeSub (yr + ya) 1 = none := by
                simp [usizeSub]
                omega
              have hux : usizeSub (xr + xa0) 1 = some (xr + xa0 - 1) := by
                simp [usizeSub, hx1]
              simp only [rowScan, hux, huy, Option.isSome_none, Bool.false_eq_true, false_iff]
              intro hall
              obtain ⟨-, h2⟩ := hall 0 (by simp [List.getD_cons_zero])
              exact hy1 h2
          · have hux : usizeSub (xr + xa0) 1 = none := by
              simp [usizeSub]
              omega
            simp only [rowScan, hux, Option.isSome_none, Bool.false_eq_true, false_iff]
            intro hall
            obtain ⟨h1, -⟩ := hall 0 (by simp [List.getD_cons_zero])
            exact hx1 (by omega)

/-- Definedness of the outer translation loop over the view's rows. -/
theorem viewScan_isSome (xr yr : Nat) (rows : List (List (Option CellContent))) :
    ∀ ya0 : Nat, (viewScan xr yr ya0 rows).isSome ↔
      ∀ j k, ((((rows.getD j []).getD k none).isSome →
        1 ≤ xr + k ∧ 1 ≤ yr + ya0 + j)) := by
  induction rows with
  | nil =>
      intro ya0
      simp only [viewScan, Option.isSome_some, true_iff]
      intro j k hk
      simp at hk
  | cons row rest ih =>
      intro ya0
      cases hrow : rowScan xr yr ya0 0 row with
      | none =>
          simp only [viewScan, hrow, Option.isSome_none, Bool.false_eq_true, false_iff]
          intro hall
          have hsome : (rowScan xr yr ya0 0 row).isSome := by
            rw [rowScan_isSome]
            intro k hk
            obtain ⟨h1, h2⟩ := hall 0 k (by rwa [List.getD_cons_zero])
            exact ⟨by omega, by omega⟩
          rw [hrow] at hsome
          cases hsome
      | some l =>
          simp only [viewScan, hrow, isSome_omap]
          rw [ih (ya0 + 1)]
          constructor
          · intro h j k hk
            cases j with
            | zero =>
                have hrowp := (rowScan_isSome xr yr ya0 row 0).mp (by rw [hrow]; rfl)
                rw [List.getD_cons_zero] at hk
                obtain ⟨h1, h2⟩ := hrowp k hk
                exact ⟨by omega, by omega⟩
            | succ j =>
                rw [List.getD_cons_succ] at hk
                obtain ⟨h1, h2⟩ := h j k hk
                exact ⟨h1, by omega⟩
          · intro h j k hk
            obtain ⟨h1, h2⟩ := h (j + 1) k (by rwa [List.getD_cons_succ])
            exact ⟨h1, by omega⟩

/-- C10 (amended): the local-view translation computes
`x_robot + x_area - 1` and `y_robot + y_area - 1` in unsigned arithmetic, and
the subtraction underflows (a debug-build panic) exactly when some `Some`
window cell sits at `x_robot + x_area = 0` or `y_robot + y_area = 0`; cells
reported `None` by the local view — in particular the off-grid border cells
next to an agent at column 0 or row 0 — are skipped by the `None` match arm
and never reach the subtraction. -/
theorem c10_underflow_charact (xr yr : Nat)
    (view : List (List (Option CellContent))) :
    (toHashmap xr yr view).isSome ↔
      ∀ ya xa, ((((view.getD ya []).getD xa none).isSome →
        1 ≤ xr + xa ∧ 1 ≤ yr + ya)) := by
  rw [toHashmap, viewScan_isSome]
  constructor
  · intro h ya xa hk
    obtain ⟨h1, h2⟩ := h ya xa hk
    exact ⟨h1, by omega⟩
  · intro h j k hk
    obtain ⟨h1, h2⟩ := h j k hk
    exact ⟨h1, by omega⟩

/-- C10 amended witness: a `Some` cell at window position `(0, 0)` with the
agent at `(1, 1)` passes the characterization. -/
theorem c10_underflow_charact_witness :
    (toHashmap 1 1 [[some coin1]]).isSome ∧ (1 ≤ 1 + 0 ∧ 1 ≤ 1 + 0) :=
  ⟨by decide,
    (c10_underflow_charact 1 1 [[some coin1]]).mp (by decide) 0 0 (by decide)⟩

/-- C3 counterexample: the extent `2^32 + 3` is odd, at least 3, and accepted
by `check_size`, yet the `usize as i32` cast wraps it to 3, so the engine
enumerates only 9 offsets before clipping instead of `n²`: its output in a
7×7 world around agent `(3,3)` has 9 cells and misses the world cell `(0,0)`,
which the clipped `n × n` square of the claim does contain. -/
theorem c3_area_wrap_counterexample :
    Pattern.check_size (.area (2 ^ 32 + 3)) = true ∧
    (2 ^ 32 + 3) % 2 = 1 ∧
    (targetOut 7 3 3 (.area (2 ^ 32 + 3))).length = 9 ∧
    MapCoordinate.new 0 0 ∉ targetOut 7 3 3 (.area (2 ^ 32 + 3)) ∧
    MapCoordinate.new 0 0 ∈
      ((areaOffsets (2 ^ 32 + 3) 3 3).flatMap fun q => clipPush 7 q.1 q.2) := by
  refine ⟨by decide, by decide, by decide, by decide, ?_⟩
  refine List.mem_flatMap.mpr ⟨((0 : Int), (0 : Int)), ?_, by decide⟩
  unfold areaOffsets
  refine List.mem_flatMap.mpr
    ⟨(((2 ^ 32 + 3) / 2 : Nat) : Int) - 3,
      mem_rangeExcl.mpr ⟨by decide, by decide⟩, ?_⟩
  refine List.mem_map.mpr
    ⟨(((2 ^ 32 + 3) / 2 : Nat) : Int) - 3,
      mem_rangeExcl.mpr ⟨by decide, by decide⟩, ?_⟩
  simp only [Prod.mk.injEq]
  constructor <;> ring
